import Mathlib

/-!
Verification of the bashtrace trace-session engine.

Shallow embedding of the Python sources:
  * `bashtrace/scriptsource.py` — the command-span resolver (`ScriptSource`),
  * `bashtrace/program.py`      — the trace stack (`BashTrace.proc_debug`),
    the stepping policy (`BashTrace.auto_respond`), operator input
    (`BashTrace.user_input` / `BashTrace.send_debug`), breakpoints
    (`BashTrace.set_break`) and the finish diagnostic (`BashTrace.proc_finish`),
  * `bashtrace.py`              — `main` (breakpoint parsing, exit behaviour).

Python strings are modelled as `List Char` (Python `len`/indices count code
points, matching list length).  Python exceptions are modelled with `Except`;
where a mutation precedes the raising statement the mutated state is kept.
Reported line numbers are 1-based and assumed `≥ 1`, as produced by bash's
`$LINENO` (Python would interpret line 0 via negative indexing, which no
claim exercises).
-/

deriving instance DecidableEq for Except

namespace Bashtrace

/-! ### Python string primitives -/

/-- Characters stripped by Python `str.strip()` (ASCII whitespace as found in
shell scripts; the full Python definition also strips some rarer control and
Unicode space characters, which never occur in the inputs considered here). -/
def pyIsSpace (c : Char) : Bool :=
  c = ' ' || c = '\t' || c = '\n' || c = '\r' || c = Char.ofNat 11 || c = Char.ofNat 12

/-- Python `str.strip()`: drop whitespace from both ends. -/
def pyStrip (l : List Char) : List Char :=
  ((l.dropWhile pyIsSpace).reverse.dropWhile pyIsSpace).reverse

/-- Python `str.rstrip('\\')`: drop all trailing backslashes. -/
def rstripBS (l : List Char) : List Char :=
  (l.reverse.dropWhile (fun c => c = '\\')).reverse

/-- Python `line.endswith('\\')`. -/
def endsWithBS (l : List Char) : Bool :=
  l.getLast? = some '\\'

/-- Helper for Python `str.index(sub, start)`: first index `≥ i` (the counter
`i` tracks the absolute position of the head of `hay`) at which `sub` occurs. -/
def findSub (sub : List Char) : List Char → Nat → Option Nat
  | [], i => if List.isPrefixOf sub [] then some i else none
  | c :: t, i => if List.isPrefixOf sub (c :: t) then some i else findSub sub t (i + 1)

/-- Python `hay.index(sub, start)` / `hay.find(sub, start)` for `start ≥ 0`:
lowest index `≥ start` where `sub` occurs in `hay` (`none` = `ValueError`
for `index`, `-1` for `find`). -/
def pyFindFrom (hay sub : List Char) (start : Nat) : Option Nat :=
  if start ≤ hay.length then findSub sub (hay.drop start) start else none

/-- Python `int(s)` for decimal strings: optional surrounding whitespace,
optional sign, then at least one digit (`none` = `ValueError`). -/
def pyDigits (ds : List Char) : Option Nat :=
  if ds ≠ [] && ds.all (fun c => c.isDigit) then
    some (ds.foldl (fun a c => a * 10 + (c.toNat - 48)) 0)
  else none

def pyInt (l : List Char) : Option Int :=
  match pyStrip l with
  | '+' :: ds => (pyDigits ds).map Int.ofNat
  | '-' :: ds => (pyDigits ds).map (fun n => -(n : Int))
  | ds => (pyDigits ds).map Int.ofNat

/-! ### ScriptSource (`bashtrace/scriptsource.py`)

One frame of the trace stack: script data (`name`, `depth`, `lineno`,
`command`, `subshell`) plus the view-helper fields used by the command-span
resolver.  `ScriptSource.load` reads the script file; the file's (tab-expanded,
split) contents are passed in explicitly as `raw_lines`.
`cmd_first_line` is an `Int` because the multi-line walk-back
`self._cmd_first_line -= self.command.count('\n')` may go below zero. -/

structure ScriptSource where
  name : List Char
  depth : Nat
  lineno : Nat
  command : List Char
  subshell : Int
  raw_lines : List (List Char)
  cmd_col : Nat
  cmd_first_line : Int
  cmd_last_line : Nat
  cmd_first_col : Nat
  cmd_last_col : Nat
deriving DecidableEq

/-- Constructor `ScriptSource.__init__`: view helpers start at zero.  `fileLines` stands
for the contents read by `load()` from the file called `name`. -/
def mkScriptSource (name : List Char) (depth lineno : Nat) (command : List Char)
    (subshell : Int) (fileLines : List (List Char)) : ScriptSource :=
  { name := name, depth := depth, lineno := lineno, command := command,
    subshell := subshell, raw_lines := fileLines,
    cmd_col := 0, cmd_first_line := 0, cmd_last_line := 0,
    cmd_first_col := 0, cmd_last_col := 0 }

/-- The `subshell` property setter: storing value 0 also resets the persisted
match column `_cmd_col`. -/
def setSubshell (s : ScriptSource) (value : Int) : ScriptSource :=
  { s with subshell := value, cmd_col := if value = 0 then 0 else s.cmd_col }

/-- Field updates `proc_debug` performs on the top frame at equal depth:
`lineno`, `command` are assigned directly, `subshell` through its setter. -/
def updateTop (s : ScriptSource) (lineno : Nat) (command : List Char)
    (subshell : Int) : ScriptSource :=
  setSubshell { s with lineno := lineno, command := command } subshell

/-! ### The line-continuation scan (`_process_multiline_statement`)

```python
while self.raw_lines[self._cmd_last_line].endswith('\\'):
    if self._cmd_last_line + 1 < len(self.raw_lines):
        self._cmd_last_line += 1
```

`contLoop` runs the loop body verbatim for `fuel` iterations (for an in-range
index `j`, as in every claim considered): `LoopRes.done` means the loop
exited, `LoopRes.running` means it is still going after `fuel` iterations.
`scanCont` is the same loop as a total function: `.error .diverge` marks the
state in which the body no longer changes anything (the loop never exits),
`.error .indexError` an out-of-range initial index. -/

inductive LoopRes where
  | done (j : Nat)
  | running (j : Nat)
deriving DecidableEq

def contLoop (raw : List (List Char)) : Nat → Nat → LoopRes
  | 0, j => .running j
  | fuel + 1, j =>
    if endsWithBS (raw.getD j []) then
      contLoop raw fuel (if j + 1 < raw.length then j + 1 else j)
    else .done j

inductive SpanErr where
  | diverge
  | indexError
  | valueError
  | assertFail
deriving DecidableEq

def scanContAux (raw : List (List Char)) : Nat → Nat → Except SpanErr Nat
  | 0, _ => .error .diverge
  | fuel + 1, j =>
    if h : j < raw.length then
      if endsWithBS (raw.get ⟨j, h⟩) then
        if j + 1 < raw.length then scanContAux raw fuel (j + 1)
        else .error .diverge
      else .ok j
    else .error .indexError

/-- The loop as a total function.  The index strictly increases and stays
below `raw.length`, so `raw.length + 1` units of fuel are never exhausted:
the `.error .diverge` outcome is produced exactly by the stuck state
(a trailing backslash on the final line). -/
def scanCont (raw : List (List Char)) (j : Nat) : Except SpanErr Nat :=
  scanContAux raw (raw.length + 1) j

/-! ### The command-span resolver (`update_command_span`) -/

/-- The continuation-stripped, trimmed text of lines `first..last`
(`highlighted_lines` in the source). -/
def hlLines (raw : List (List Char)) (first last : Nat) : List (List Char) :=
  (List.range' first (last + 1 - first)).map (fun ln => pyStrip (rstripBS (raw.getD ln [])))

/-- The per-line walk converting the absolute match offset `col` into a
`(first_line, column, pad)` triple:

```python
pad = 0
for line in highlighted_lines:
    if col > len(line):
        self._cmd_first_line += 1
        col -= len(line) + 1
    else:
        raw_line = self.raw_lines[self._cmd_first_line]
        pad = raw_line.index(line)
        break
```
-/
def walkLines (raw : List (List Char)) : List (List Char) → Nat → Nat →
    Except SpanErr (Nat × Nat × Nat)
  | [], fl, col => .ok (fl, col, 0)
  | line :: rest, fl, col =>
    if col > line.length then walkLines raw rest (fl + 1) (col - (line.length + 1))
    else
      if h : fl < raw.length then
        match pyFindFrom (raw.get ⟨fl, h⟩) line 0 with
        | some pad => .ok (fl, col, pad)
        | none => .error .valueError
      else .error .indexError

def spanScan (s : ScriptSource) : Except SpanErr Nat :=
  scanCont s.raw_lines (s.lineno - 1)

def spanHl (s : ScriptSource) (last : Nat) : List (List Char) :=
  hlLines s.raw_lines (s.lineno - 1) last

/-- Python `merged_highlighted_lines = ' '.join(highlighted_lines)`. -/
def spanMerged (s : ScriptSource) (last : Nat) : List Char :=
  List.intercalate [' '] (spanHl s last)

/-- Result fields written by the fragment (strictly-shorter-command) branch. -/
def fragResult (s : ScriptSource) (last col : Nat) (fcp : Nat × Nat × Nat) :
    ScriptSource :=
  { s with cmd_col := col, cmd_first_line := (fcp.1 : Int), cmd_last_line := last,
           cmd_first_col := fcp.2.2 + fcp.2.1,
           cmd_last_col := fcp.2.2 + fcp.2.1 + s.command.length }

/-- Result fields written by the whole-line branch (columns keep their
initial 0; `first_line` walks back by the newline count of `command`). -/
def wholeResult (s : ScriptSource) (last : Nat) : ScriptSource :=
  { s with cmd_first_line := ((s.lineno - 1 : Nat) : Int) - (s.command.count '\n' : Int),
           cmd_last_line := last, cmd_first_col := 0, cmd_last_col := 0 }

/-- Resolver `ScriptSource.update_command_span`, faithful to the source including its
failure modes: a never-ending continuation scan (`diverge`), `ValueError`
from `merged_highlighted_lines.index(self.command, self._cmd_col)` when the
fragment is absent, and `AssertionError` from `assert self.subshell == 0`. -/
def updateCommandSpan (s : ScriptSource) : Except SpanErr ScriptSource :=
  match spanScan s with
  | .error e => .error e
  | .ok last =>
    if s.command.length < (spanMerged s last).length then
      match pyFindFrom (spanMerged s last) s.command s.cmd_col with
      | none => .error .valueError
      | some col =>
        match walkLines s.raw_lines (spanHl s last) (s.lineno - 1) col with
        | .error e => .error e
        | .ok fcp => .ok (fragResult s last col fcp)
    else if s.subshell = 0 then .ok (wholeResult s last)
    else .error .assertFail

/-! ### Trace stack (`BashTrace.proc_debug`, `program.py` lines 335-375)

A decoded debug event; `proc_debug` parses the wire line into these fields
before the stack update (the claims below start from decoded events).  The
stack is `_scripts`, bottom (wrapper) frame at index 0, top frame last
(`_scripts[-1]`).

```python
if not len(self._scripts) or depth > self.top_script.depth:
    script_source = ScriptSource(script, depth, lineno, command, subshell)
    self._scripts.append(script_source)
else:
    if depth < self.top_script.depth:
        self._scripts.pop()
    assert self.top_script.depth == depth
    self.top_script.lineno = lineno
    self.top_script.command = command
    self.top_script.subshell = subshell
```

`applyEvent` returns the stack together with a fatal-error flag, keeping the
Python semantics in which mutations performed before a raised
`AssertionError`/`IndexError` survive (the `pop()` precedes the assert).
`fs` supplies the contents `ScriptSource.load` would read for a script name.
-/

structure DebugEvent where
  lineno : Nat
  script : List Char
  command : List Char
  depth : Nat
  subshell : Int
deriving DecidableEq

def applyEvent (fs : List Char → List (List Char)) (stack : List ScriptSource)
    (e : DebugEvent) : List ScriptSource × Bool :=
  match stack.getLast? with
  | none =>
    (stack ++ [mkScriptSource e.script e.depth e.lineno e.command e.subshell (fs e.script)],
     false)
  | some top =>
    if e.depth > top.depth then
      (stack ++ [mkScriptSource e.script e.depth e.lineno e.command e.subshell (fs e.script)],
       false)
    else
      let s1 := if e.depth < top.depth then stack.dropLast else stack
      match s1.getLast? with
      | none => (s1, true)
      | some t =>
        if t.depth = e.depth then
          (s1.dropLast ++ [updateTop t e.lineno e.command e.subshell], false)
        else (s1, true)

/-- Apply a sequence of events; a fatal consistency error ends the session,
freezing the stack state at the point of the error. -/
def runEvents (fs : List Char → List (List Char)) :
    List ScriptSource × Bool → List DebugEvent → List ScriptSource × Bool
  | p, [] => p
  | (st, true), _ :: _ => (st, true)
  | (st, false), e :: es => runEvents fs (applyEvent fs st e) es

/-- Well-formedness of an event sequence relative to the evolving stack:
each event's depth differs from the (then-current) top frame's depth by at
most one level; vacuous while the stack is empty. -/
def wfFrom (fs : List Char → List (List Char)) :
    List ScriptSource → List DebugEvent → Bool
  | _, [] => true
  | st, e :: es =>
    (match st.getLast? with
     | none => true
     | some t => decide (e.depth ≤ t.depth + 1 ∧ t.depth ≤ e.depth + 1)) &&
    wfFrom fs (applyEvent fs st e).1 es

/-! ### Session state, stepping policy, operator input (`program.py`)

`BashTrace.__init__` state relevant to the claims: `_awaiting_response`,
`_continue`, `_break`, `_input_mode`, `_finished`, and the `_scripts` stack.
-/

structure BTState where
  scripts : List ScriptSource
  awaiting : Bool
  cont : Bool
  brk : Option (List Char × Int)
  inputMode : Bool
  finished : Bool
deriving DecidableEq

/-- Session defaults from `BashTrace.__init__`. -/
def initBT : BTState :=
  { scripts := [], awaiting := false, cont := true, brk := none,
    inputMode := false, finished := false }

/-- Breakpoint setup `BashTrace.set_break`: both parts empty pauses immediately, otherwise the
line part goes through `int(line)` (`ValueError` = `.error`, a startup
failure before any process is spawned). -/
def setBreak (s : BTState) (script_name line : List Char) :
    Except Unit BTState :=
  if script_name.isEmpty && line.isEmpty then .ok { s with cont := false }
  else
    match pyInt line with
    | none => .error ()
    | some n => .ok { s with brk := some (script_name, n) }

/-- Step-command write `BashTrace.send_debug`: write one line, then
`self.awaiting_response = not done`. -/
def sendDebug (s : BTState) (msg : List Char) (done : Bool) :
    BTState × Option (List Char) :=
  ({ s with awaiting := !done }, some msg)

/-- Stepping policy `BashTrace.auto_respond` as the pure function it implements:
inputs are run-mode `_continue`, the breakpoint `_break`, and the top frame's
`(name, lineno)`; outputs the new `(run-mode, breakpoint)` plus the
auto-answer written to the step stream (`some "0"` = Advance).  `time.sleep`
does not change any state and is omitted.  Python truthiness: an empty
breakpoint script matches any script, breakpoint line 0 matches any line.

```python
if self._continue:
    time.sleep(self._sleep)
    if self._break:
        break_script, break_line = self._break
        if ((not break_script or self.top_script.name == break_script)
        and (not break_line or self.top_script.lineno >= break_line)):
            self._break = None
            self._continue = False
            return
    self.send_debug('0')
```
-/
def autoRespond (cont : Bool) (brk : Option (List Char × Int))
    (top : List Char × Nat) : (Bool × Option (List Char × Int)) × Option (List Char) :=
  if cont then
    match brk with
    | some (break_script, break_line) =>
      if (break_script = [] ∨ top.1 = break_script) ∧
         (break_line = 0 ∨ break_line ≤ (top.2 : Int)) then
        ((false, none), none)
      else ((cont, brk), some ['0'])
    | none => ((cont, brk), some ['0'])
  else ((cont, brk), none)

/-- The stepping policy applied to each event of a sequence in turn, given
the top frame `(name, lineno)` resolved for that event; collects the
auto-answers. -/
def runAuto (p : Bool × Option (List Char × Int)) :
    List (List Char × Nat) → (Bool × Option (List Char × Int)) × List (Option (List Char))
  | [] => (p, [])
  | t :: ts =>
    let r := autoRespond p.1 p.2 t
    let rest := runAuto r.1 ts
    (rest.1, r.2 :: rest.2)

/-- Operator input `BashTrace.user_input`, restricted to the stepping keys (terminal-resize
and raw-stdin forwarding only touch the UI/child stdin, not the session
state modelled here).  `evalValue` is the expression the operator enters at
the `Eval:` prompt (`read_line`); `'\x1b'` is Escape.  Returns the new state
and the line written to the step stream, if any. -/
def userInput (s : BTState) (c : Char) (evalValue : List Char) :
    BTState × Option (List Char) :=
  if s.inputMode then
    if c = Char.ofNat 27 then ({ s with inputMode := false }, none)
    else (s, none)
  else if c = 'q' then (s, none)
  else if c = 'p' then ({ s with cont := false }, none)
  else if c = 'i' then ({ s with inputMode := true }, none)
  else if s.awaiting then
    if c = 'n' then sendDebug s ['0'] true
    else if c = 'c' then sendDebug { s with cont := true } ['0'] true
    else if c = 's' then sendDebug s ['1'] true
    else if c = 'r' then sendDebug s ['2'] true
    else if c = 'e' then
      if evalValue ≠ [] then sendDebug s ("EVAL ".toList ++ evalValue) false
      else (s, none)
    else (s, none)
  else (s, none)

/-! ### Process result handling (`bashtrace.py` main, `BashTrace.proc_finish`)
-/

/-- Session run `run_script_noui` returns `self._proc.wait()`, the child's wait status
(negative = terminated by that signal number, per `subprocess`). -/
def runScriptNoui (childStatus : Int) : Int :=
  childStatus

/-- Entry point `main` calls `run_script_noui` (or `run_script` via `curses.wrapper`),
discards the returned status and falls off the end, returning `None`. -/
def mainResult (childStatus : Int) : Option Int :=
  match runScriptNoui childStatus with
  | _ => none

/-- CPython exits with status 0 when the script's `main()` returns `None`. -/
def mainExitStatus (childStatus : Int) : Int :=
  match mainResult childStatus with
  | none => 0
  | some n => n

/-- Diagnostic line of `BashTrace.proc_finish`.  `signalNames` stands for
Python's `signal_name` lookup over the platform's signal table, applied to
`abs(status)`. -/
def procFinishDiag (signalNames : Int → List Char) (status : Int) : List Char :=
  if status < 0 then "Terminated (".toList ++ signalNames (-status) ++ [')']
  else "Finished (returned ".toList ++ (toString status).toList ++ [')']

/-! ## Lemmas about the fragment search -/

theorem findSub_le (sub : List Char) :
    ∀ hay i j, findSub sub hay i = some j → i ≤ j := by
  intro hay
  induction hay with
  | nil =>
    intro i j h
    unfold findSub at h
    split at h
    · exact Option.some.inj h ▸ Nat.le_refl i
    · exact absurd h (by simp)
  | cons c t ih =>
    intro i j h
    unfold findSub at h
    split at h
    · exact Option.some.inj h ▸ Nat.le_refl i
    · exact Nat.le_of_succ_le (ih (i + 1) j h)

theorem findSub_bound (sub : List Char) :
    ∀ hay i j, findSub sub hay i = some j → j - i ≤ hay.length := by
  intro hay
  induction hay with
  | nil =>
    intro i j h
    unfold findSub at h
    split at h
    · simp [← Option.some.inj h]
    · exact absurd h (by simp)
  | cons c t ih =>
    intro i j h
    unfold findSub at h
    split at h
    · simp [← Option.some.inj h]
    · have := ih (i + 1) j h
      simp only [List.length_cons]
      omega

theorem findSub_occurs (sub : List Char) :
    ∀ hay i j, findSub sub hay i = some j →
      List.isPrefixOf sub (hay.drop (j - i)) = true := by
  intro hay
  induction hay with
  | nil =>
    intro i j h
    unfold findSub at h
    split at h
    next hp => simpa [← Option.some.inj h] using hp
    next => exact absurd h (by simp)
  | cons c t ih =>
    intro i j h
    unfold findSub at h
    split at h
    next hp => simpa [← Option.some.inj h] using hp
    next =>
      have hle := findSub_le sub t (i + 1) j h
      have := ih (i + 1) j h
      have hdr : j - i = (j - (i + 1)) + 1 := by omega
      simpa [hdr] using this

theorem findSub_of_occurs (sub hay : List Char) (i : Nat)
    (h : List.isPrefixOf sub hay = true) : findSub sub hay i = some i := by
  cases hay with
  | nil => simp [findSub, h]
  | cons c t => simp [findSub, h]

/-- Python `hay.index(sub, j)` where `j` was itself returned by a previous
`hay.index(sub, start)` finds the same occurrence `j` again: the search
resumes at (not after) a persisted match column. -/
theorem pyFindFrom_idem (hay sub : List Char) (start j : Nat)
    (h : pyFindFrom hay sub start = some j) : pyFindFrom hay sub j = some j := by
  unfold pyFindFrom at h ⊢
  split at h
  next hstart =>
    have hle := findSub_le sub (hay.drop start) start j h
    have hbound := findSub_bound sub (hay.drop start) start j h
    have hocc := findSub_occurs sub (hay.drop start) start j h
    rw [List.drop_drop] at hocc
    have hj : j ≤ hay.length := by
      have := List.length_drop start hay ▸ hbound
      omega
    have hadd : start + (j - start) = j := by omega
    rw [hadd] at hocc
    rw [if_pos hj]
    exact findSub_of_occurs sub (hay.drop j) j hocc
  next => exact absurd h (by simp)

/-- A previously found match column is a lower bound for the result. -/
theorem pyFindFrom_ge (hay sub : List Char) (start j : Nat)
    (h : pyFindFrom hay sub start = some j) : start ≤ j := by
  unfold pyFindFrom at h
  split at h
  next => exact findSub_le sub (hay.drop start) start j h
  next => exact absurd h (by simp)

/-! ## Lemmas about the resolver -/

/-- A successful resolution only rewrites the view-helper fields, so running
`update_command_span` again on its own result (same reported line and
command, same persisted column) reproduces that result exactly: repeated
calls neither advance past nor fall behind the persisted match. -/
theorem updateCommandSpan_idem (s s' : ScriptSource)
    (h : updateCommandSpan s = .ok s') : updateCommandSpan s' = .ok s' := by
  unfold updateCommandSpan at h
  cases hscan : spanScan s with
  | error e => rw [hscan] at h; exact absurd h (by simp)
  | ok last =>
    rw [hscan] at h
    dsimp only [] at h
    by_cases hlen : s.command.length < (spanMerged s last).length
    · rw [if_pos hlen] at h
      cases hfind : pyFindFrom (spanMerged s last) s.command s.cmd_col with
      | none => rw [hfind] at h; exact absurd h (by simp)
      | some col =>
        rw [hfind] at h
        dsimp only [] at h
        cases hwalk : walkLines s.raw_lines (spanHl s last) (s.lineno - 1) col with
        | error e => rw [hwalk] at h; exact absurd h (by simp)
        | ok fcp =>
          rw [hwalk] at h
          dsimp only [] at h
          have hs' : s' = fragResult s last col fcp := (Except.ok.inj h).symm
          subst hs'
          have hscan2 : spanScan (fragResult s last col fcp) = Except.ok last := hscan
          have hlen2 : (fragResult s last col fcp).command.length <
              (spanMerged (fragResult s last col fcp) last).length := hlen
          have hfind2 : pyFindFrom (spanMerged (fragResult s last col fcp) last)
              (fragResult s last col fcp).command (fragResult s last col fcp).cmd_col
              = some col :=
            pyFindFrom_idem (spanMerged s last) s.command s.cmd_col col hfind
          have hwalk2 : walkLines (fragResult s last col fcp).raw_lines
              (spanHl (fragResult s last col fcp) last)
              ((fragResult s last col fcp).lineno - 1) col = .ok fcp := hwalk
          unfold updateCommandSpan
          rw [hscan2]
          dsimp only []
          rw [if_pos hlen2, hfind2]
          dsimp only []
          rw [hwalk2]
          rfl
    · rw [if_neg hlen] at h
      by_cases hsub : s.subshell = 0
      · rw [if_pos hsub] at h
        have hs' : s' = wholeResult s last := (Except.ok.inj h).symm
        subst hs'
        have hscan2 : spanScan (wholeResult s last) = Except.ok last := hscan
        have hlen2 : ¬ (wholeResult s last).command.length <
            (spanMerged (wholeResult s last) last).length := hlen
        have hsub2 : (wholeResult s last).subshell = 0 := hsub
        unfold updateCommandSpan
        rw [hscan2]
        dsimp only []
        rw [if_neg hlen2, if_pos hsub2]
        rfl
      · rw [if_neg hsub] at h
        exact absurd h (by simp)

/-- The persisted match column never decreases across resolutions. -/
theorem updateCommandSpan_col_mono (s s' : ScriptSource)
    (h : updateCommandSpan s = .ok s') : s.cmd_col ≤ s'.cmd_col := by
  unfold updateCommandSpan at h
  cases hscan : spanScan s with
  | error e => rw [hscan] at h; exact absurd h (by simp)
  | ok last =>
    rw [hscan] at h
    dsimp only [] at h
    by_cases hlen : s.command.length < (spanMerged s last).length
    · rw [if_pos hlen] at h
      cases hfind : pyFindFrom (spanMerged s last) s.command s.cmd_col with
      | none => rw [hfind] at h; exact absurd h (by simp)
      | some col =>
        rw [hfind] at h
        dsimp only [] at h
        cases hwalk : walkLines s.raw_lines (spanHl s last) (s.lineno - 1) col with
        | error e => rw [hwalk] at h; exact absurd h (by simp)
        | ok fcp =>
          rw [hwalk] at h
          dsimp only [] at h
          have hs' : s' = fragResult s last col fcp := (Except.ok.inj h).symm
          subst hs'
          exact pyFindFrom_ge (spanMerged s last) s.command s.cmd_col col hfind
    · rw [if_neg hlen] at h
      by_cases hsub : s.subshell = 0
      · rw [if_pos hsub] at h
        have hs' : s' = wholeResult s last := (Except.ok.inj h).symm
        subst hs'
        exact Nat.le_refl _
      · rw [if_neg hsub] at h
        exact absurd h (by simp)

/-! ## Lemmas about the trace stack

The invariant carried through `runEvents`: the frames' depths read, bottom to
top, as the consecutive range starting at the wrapper's depth `d0` (hence
strictly increasing and collision-free), and the bottom frame still carries
the wrapper's immutable identity `(name, depth) = (nm, d0)`. -/

theorem getLast_depth_of_map_range' (st : List ScriptSource) (d0 m : Nat)
    (hm : st.map (fun f => f.depth) = List.range' d0 (m + 1)) :
    ∃ t, st.getLast? = some t ∧ t.depth = d0 + m := by
  have h1 : st.getLast?.map (fun f => f.depth) = some (d0 + m) := by
    rw [← List.getLast?_map, hm, List.range'_concat, List.getLast?_concat]
    simp
  cases hl : st.getLast? with
  | none => rw [hl] at h1; exact absurd h1 (by simp)
  | some t =>
    rw [hl] at h1
    exact ⟨t, rfl, Option.some.inj h1⟩

theorem length_of_map_range' (st : List ScriptSource) (d0 n : Nat)
    (hm : st.map (fun f => f.depth) = List.range' d0 n) : st.length = n := by
  have := congrArg List.length hm
  simpa using this

/-- Update `updateTop` changes only the mutable fields. -/
theorem updateTop_depth (t : ScriptSource) (l : Nat) (c : List Char) (ss : Int) :
    (updateTop t l c ss).depth = t.depth := rfl

theorem updateTop_name (t : ScriptSource) (l : Nat) (c : List Char) (ss : Int) :
    (updateTop t l c ss).name = t.name := rfl

/-- Replacing the last frame by one with the same `(name, depth)` preserves
the invariant. -/
theorem updateLast_inv (d0 : Nat) (nm : List Char) (st : List ScriptSource)
    (t u : ScriptSource) (m : Nat)
    (hm : st.map (fun f => f.depth) = List.range' d0 (m + 1))
    (hh : st.head?.map (fun f => (f.name, f.depth)) = some (nm, d0))
    (hlast : st.getLast? = some t)
    (hud : u.depth = t.depth) (hun : u.name = t.name) :
    (st.dropLast ++ [u]).map (fun f => f.depth) =
      List.range' d0 (st.dropLast ++ [u]).length ∧
    (st.dropLast ++ [u]).head?.map (fun f => (f.name, f.depth)) = some (nm, d0) := by
  have hlen : st.length = m + 1 := length_of_map_range' st d0 (m + 1) hm
  obtain ⟨t', hl', hd'⟩ := getLast_depth_of_map_range' st d0 m hm
  have htt : t' = t := by rw [hlast] at hl'; exact (Option.some.inj hl').symm
  rw [htt] at hd'
  constructor
  · rw [List.map_append, List.map_dropLast, hm]
    have hlen2 : (st.dropLast ++ [u]).length = m + 1 := by
      simp [List.length_append, List.length_dropLast, hlen]
    rw [hlen2, List.range'_concat]
    simp [List.dropLast_concat, hud, hd']
  · match st with
    | [] => exact absurd hh (by simp)
    | [a] =>
      have ha : t = a := Option.some.inj hlast.symm
      rw [ha] at hud hun
      simpa [hud, hun] using hh
    | a :: b :: r =>
      simpa using hh

/-- One event preserves the invariant, provided its depth is within one of
the top frame's and not below the wrapper's depth. -/
theorem applyEvent_inv (fs : List Char → List (List Char)) (e : DebugEvent)
    (d0 : Nat) (nm : List Char) (st : List ScriptSource) (t : ScriptSource)
    (hm : st.map (fun f => f.depth) = List.range' d0 st.length)
    (hh : st.head?.map (fun f => (f.name, f.depth)) = some (nm, d0))
    (hlast : st.getLast? = some t)
    (hwf1 : e.depth ≤ t.depth + 1) (hwf2 : t.depth ≤ e.depth + 1)
    (hlb : d0 ≤ e.depth) :
    (applyEvent fs st e).2 = false ∧
    (applyEvent fs st e).1.map (fun f => f.depth) =
      List.range' d0 (applyEvent fs st e).1.length ∧
    (applyEvent fs st e).1.head?.map (fun f => (f.name, f.depth)) = some (nm, d0) := by
  have hne : st ≠ [] := by
    intro hempty
    rw [hempty] at hh
    exact absurd hh (by simp)
  obtain ⟨m, hn⟩ : ∃ m, st.length = m + 1 := by
    cases st with
    | nil => exact absurd rfl hne
    | cons a r => exact ⟨r.length, rfl⟩
  rw [hn] at hm
  obtain ⟨t', hl', htd⟩ := getLast_depth_of_map_range' st d0 m hm
  have htt : t' = t := by rw [hlast] at hl'; exact (Option.some.inj hl').symm
  rw [htt] at htd
  unfold applyEvent
  rw [hlast]
  dsimp only []
  by_cases hgt : e.depth > t.depth
  · rw [if_pos hgt]
    have hed : e.depth = d0 + (m + 1) := by omega
    refine ⟨rfl, ?_, ?_⟩
    · rw [List.map_append]
      have hlen2 : (st ++ [mkScriptSource e.script e.depth e.lineno e.command
          e.subshell (fs e.script)]).length = (m + 1) + 1 := by
        simp [List.length_append, hn]
      rw [hlen2, List.range'_concat, hm]
      simp [mkScriptSource, hed]
    · cases st with
      | nil => exact absurd rfl hne
      | cons a r => simpa using hh
  · rw [if_neg hgt]
    by_cases hlt : e.depth < t.depth
    · rw [if_pos hlt]
      have hm1 : 1 ≤ m := by omega
      obtain ⟨m', hm'⟩ : ∃ m', m = m' + 1 := ⟨m - 1, by omega⟩
      have hms : st.dropLast.map (fun f => f.depth) = List.range' d0 (m' + 1) := by
        rw [List.map_dropLast, hm, List.range'_concat, List.dropLast_concat, hm']
      obtain ⟨t2, hl2, htd2⟩ := getLast_depth_of_map_range' st.dropLast d0 m' hms
      rw [hl2]
      dsimp only []
      have heq : t2.depth = e.depth := by omega
      rw [if_pos heq]
      have hh2 : st.dropLast.head?.map (fun f => (f.name, f.depth)) = some (nm, d0) := by
        cases st with
        | nil => exact absurd rfl hne
        | cons a r =>
          cases r with
          | nil => simp at hn; omega
          | cons b r2 => simpa using hh
      refine ⟨rfl, ?_⟩
      exact updateLast_inv d0 nm st.dropLast t2
        (updateTop t2 e.lineno e.command e.subshell) m' hms hh2 hl2 rfl rfl
    · rw [if_neg hlt]
      rw [hlast]
      dsimp only []
      have heq : t.depth = e.depth := by omega
      rw [if_pos heq]
      refine ⟨rfl, ?_⟩
      exact updateLast_inv d0 nm st t
        (updateTop t e.lineno e.command e.subshell) m hm hh hlast rfl rfl

/-- The invariant threads through a whole well-formed event sequence. -/
theorem runEvents_inv (fs : List Char → List (List Char)) (d0 : Nat) (nm : List Char) :
    ∀ (es : List DebugEvent) (st : List ScriptSource),
      st.map (fun f => f.depth) = List.range' d0 st.length →
      st.head?.map (fun f => (f.name, f.depth)) = some (nm, d0) →
      wfFrom fs st es = true →
      (∀ e ∈ es, d0 ≤ e.depth) →
      (runEvents fs (st, false) es).2 = false ∧
      (runEvents fs (st, false) es).1.map (fun f => f.depth) =
        List.range' d0 (runEvents fs (st, false) es).1.length ∧
      (runEvents fs (st, false) es).1.head?.map (fun f => (f.name, f.depth))
        = some (nm, d0) := by
  intro es
  induction es with
  | nil =>
    intro st hm hh _ _
    exact ⟨rfl, hm, hh⟩
  | cons e es ih =>
    intro st hm hh hwf hlb
    have hne : st ≠ [] := by
      intro hempty
      rw [hempty] at hh
      exact absurd hh (by simp)
    obtain ⟨m, hn⟩ : ∃ m, st.length = m + 1 := by
      cases st with
      | nil => exact absurd rfl hne
      | cons a r => exact ⟨r.length, rfl⟩
    obtain ⟨t, hlast, htd⟩ := getLast_depth_of_map_range' st d0 m (hn ▸ hm)
    unfold wfFrom at hwf
    rw [hlast] at hwf
    rw [Bool.and_eq_true, decide_eq_true_eq] at hwf
    obtain ⟨⟨hwf1, hwf2⟩, hwfrest⟩ := hwf
    have hstep := applyEvent_inv fs e d0 nm st t hm hh hlast hwf1 hwf2
      (hlb e (by simp))
    have hpair : applyEvent fs st e = ((applyEvent fs st e).1, false) := by
      rw [← hstep.1]
    have hrun : runEvents fs (st, false) (e :: es)
        = runEvents fs ((applyEvent fs st e).1, false) es := by
      show runEvents fs (applyEvent fs st e) es = _
      rw [hpair]
    rw [hrun]
    exact ih (applyEvent fs st e).1 hstep.2.1 hstep.2.2 hwfrest
      (fun x hx => hlb x (by simp [hx]))

/-! ## Lemmas about the stepping policy -/

/-- Below the breakpoint line the policy auto-answers Advance and leaves the
run-mode and breakpoint untouched. -/
theorem autoRespond_advance (bl : Int) (t : List Char × Nat)
    (ht : (t.2 : Int) < bl) :
    autoRespond true (some ([], bl)) t = ((true, some ([], bl)), some ['0']) := by
  have hcond : ¬ ((([] : List Char) = [] ∨ t.1 = []) ∧
      (bl = 0 ∨ bl ≤ (t.2 : Int))) := by
    rintro ⟨-, h2 | h2⟩ <;> omega
  simp [autoRespond, hcond]
  omega

/-- At or past the breakpoint line the policy consumes the breakpoint,
pauses, and answers nothing. -/
theorem autoRespond_hit (bl : Int) (t : List Char × Nat)
    (ht : bl ≤ (t.2 : Int)) :
    autoRespond true (some ([], bl)) t = ((false, none), none) := by
  have hcond : ((([] : List Char) = [] ∨ t.1 = []) ∧
      (bl = 0 ∨ bl ≤ (t.2 : Int))) := ⟨Or.inl rfl, Or.inr ht⟩
  simp [autoRespond, hcond]

theorem runAuto_advance (bl : Int) (tops : List (List Char × Nat))
    (hall : ∀ x ∈ tops, (x.2 : Int) < bl) :
    runAuto (true, some ([], bl)) tops
      = ((true, some ([], bl)), tops.map (fun _ => some ['0'])) := by
  induction tops with
  | nil => rfl
  | cons t ts ih =>
    have hstep := autoRespond_advance bl t (hall t (by simp))
    have hrest := ih (fun x hx => hall x (by simp [hx]))
    simp only [runAuto]
    rw [hstep, hrest]
    simp

theorem runAuto_append (p : Bool × Option (List Char × Int))
    (l1 l2 : List (List Char × Nat)) :
    runAuto p (l1 ++ l2)
      = ((runAuto (runAuto p l1).1 l2).1,
         (runAuto p l1).2 ++ (runAuto (runAuto p l1).1 l2).2) := by
  induction l1 generalizing p with
  | nil => rfl
  | cons t ts ih =>
    show runAuto p (t :: (ts ++ l2)) = _
    simp only [runAuto]
    rw [ih (autoRespond p.1 p.2 t).1]
    rfl

/-! ## Claim C1 -/

def c1cexEvents : List DebugEvent :=
  [⟨1, ['w'], ['c'], 1, 0⟩, ⟨2, ['w'], ['c'], 0, 0⟩]

/-- Claim C1 counterexample.  The claim's well-formedness condition (each
event's depth within one of the previous top frame's depth) admits the
sequence depth 1, depth 0: the second event pops the single (wrapper) frame
— `self._scripts.pop()` runs before the consistency assert — leaving the
stack empty, so the first frame ever pushed is no longer at index 0.  (The
session then dies with the fatal flag set, but the wrapper has been
popped.) -/
theorem c1_counterexample :
    wfFrom (fun _ => []) [] c1cexEvents = true ∧
    runEvents (fun _ => []) ([], false) c1cexEvents = ([], true) := by
  constructor
  · decide
  · decide

/-- Claim C1 (amended): for every well-formed event sequence (consecutive
depth changes of at most one level) in which, additionally, no event's depth
drops below the first event's (wrapper's) depth, applying the events to a
fresh trace stack never raises a consistency error, the frames' depths read
as the consecutive range from the wrapper's depth (strictly increasing
bottom-to-top, no two frames sharing a depth), and the frame at index 0 is
still the wrapper: the first event's script and depth. -/
theorem c1_theorem (fs : List Char → List (List Char)) (e0 : DebugEvent)
    (es : List DebugEvent)
    (hwf : wfFrom fs [] (e0 :: es) = true)
    (hlb : ∀ e ∈ e0 :: es, e0.depth ≤ e.depth) :
    (runEvents fs ([], false) (e0 :: es)).2 = false ∧
    (runEvents fs ([], false) (e0 :: es)).1.head?.map (fun f => (f.name, f.depth))
      = some (e0.script, e0.depth) ∧
    (runEvents fs ([], false) (e0 :: es)).1.map (fun f => f.depth)
      = List.range' e0.depth (runEvents fs ([], false) (e0 :: es)).1.length ∧
    ((runEvents fs ([], false) (e0 :: es)).1.map (fun f => f.depth)).Pairwise
      (fun a b => a < b) := by
  have h0 : applyEvent fs [] e0
      = ([mkScriptSource e0.script e0.depth e0.lineno e0.command e0.subshell
          (fs e0.script)], false) := rfl
  have hrun : runEvents fs ([], false) (e0 :: es)
      = runEvents fs ([mkScriptSource e0.script e0.depth e0.lineno e0.command
          e0.subshell (fs e0.script)], false) es := by
    show runEvents fs (applyEvent fs [] e0) es = _
    rw [h0]
  have hwf' : wfFrom fs [mkScriptSource e0.script e0.depth e0.lineno e0.command
      e0.subshell (fs e0.script)] es = true := by
    unfold wfFrom at hwf
    rw [h0] at hwf
    simpa using hwf
  have hmap : [mkScriptSource e0.script e0.depth e0.lineno e0.command e0.subshell
      (fs e0.script)].map (fun f => f.depth)
      = List.range' e0.depth ([mkScriptSource e0.script e0.depth e0.lineno
          e0.command e0.subshell (fs e0.script)] : List ScriptSource).length := by
    simp [mkScriptSource, List.range'_one]
  have hh : ([mkScriptSource e0.script e0.depth e0.lineno e0.command e0.subshell
      (fs e0.script)] : List ScriptSource).head?.map (fun f => (f.name, f.depth))
      = some (e0.script, e0.depth) := rfl
  have hmain := runEvents_inv fs e0.depth e0.script es _ hmap hh hwf'
    (fun e he => hlb e (List.mem_cons_of_mem _ he))
  rw [hrun]
  refine ⟨hmain.1, hmain.2.2, hmain.2.1, ?_⟩
  rw [hmain.2.1]
  exact List.pairwise_lt_range' _ _ 1 Nat.one_pos

def c1wEvents : List DebugEvent :=
  [⟨1, ['d'], ['x'], 1, 0⟩, ⟨1, ['s'], ['y'], 2, 0⟩,
   ⟨2, ['s'], ['z'], 2, 1⟩, ⟨3, ['d'], ['w'], 1, 0⟩]

/-- Claim C1 witness: a concrete well-formed sequence (push wrapper, push,
same-depth update, pop) keeps the invariant. -/
theorem c1_theorem_witness :
    wfFrom (fun _ => []) [] c1wEvents = true ∧
    (runEvents (fun _ => []) ([], false) c1wEvents).2 = false ∧
    (runEvents (fun _ => []) ([], false) c1wEvents).1.head?.map
      (fun f => (f.name, f.depth)) = some (['d'], 1) ∧
    (runEvents (fun _ => []) ([], false) c1wEvents).1.map (fun f => f.depth)
      = List.range' 1 (runEvents (fun _ => []) ([], false) c1wEvents).1.length ∧
    ((runEvents (fun _ => []) ([], false) c1wEvents).1.map (fun f => f.depth)).Pairwise
      (fun a b => a < b) := by
  have h := c1_theorem (fun _ => []) ⟨1, ['d'], ['x'], 1, 0⟩
    [⟨1, ['s'], ['y'], 2, 0⟩, ⟨2, ['s'], ['z'], 2, 1⟩, ⟨3, ['d'], ['w'], 1, 0⟩]
    (by decide) (by decide)
  exact ⟨by decide, h.1, h.2.1, h.2.2.1, h.2.2.2⟩

/-! ## Claim C2 -/

def c2cexS : ScriptSource :=
  mkScriptSource "t.sh".toList 2 1 "foo".toList 1 ["foo; foo".toList]

/-- Claim C2 counterexample.  Line `"foo; foo"` contains the command `"foo"`
at columns 0 and 5 (the third conjunct certifies an occurrence strictly past
the first at column 5).  The first call (subshell 1, persisted column 0)
matches column 0 and persists `self._cmd_col = col` — the match position,
not the position after the match — so the second identical call searches
from column 0 again and returns column 0: not strictly past the first
occurrence. -/
theorem c2_counterexample :
    (updateCommandSpan c2cexS).toOption.map (fun s => s.cmd_col) = some 0 ∧
    ((updateCommandSpan c2cexS).toOption.bind
      (fun s1 => (updateCommandSpan s1).toOption)).map (fun s => s.cmd_col)
      = some 0 ∧
    pyFindFrom "foo; foo".toList "foo".toList 5 = some 5 := by
  refine ⟨by decide, by decide, by decide⟩

/-- Claim C2 (amended): the resolver persists the match column itself, so a
second identical call (same reported line and command, same persisted
column) finds the same occurrence again — the search resumes at, not after,
the previous match.  The persisted column never decreases, so strictly
earlier occurrences are never re-matched. -/
theorem c2_theorem (s s' : ScriptSource) (_hsub : s.subshell ≠ 0)
    (h : updateCommandSpan s = .ok s') :
    s.cmd_col ≤ s'.cmd_col ∧ updateCommandSpan s' = .ok s' :=
  ⟨updateCommandSpan_col_mono s s' h, updateCommandSpan_idem s s' h⟩

def c2wS : ScriptSource :=
  mkScriptSource "t.sh".toList 2 1 "foo".toList 1 ["if true; then foo; fi".toList]

def c2wS' : ScriptSource :=
  { c2wS with cmd_col := 14, cmd_first_line := 0, cmd_last_line := 0,
              cmd_first_col := 14, cmd_last_col := 17 }

/-- Claim C2 witness: the spec's fragment example, with its resolved state. -/
theorem c2_theorem_witness :
    c2wS.subshell ≠ 0 ∧
    updateCommandSpan c2wS = .ok c2wS' ∧
    (c2wS.cmd_col ≤ c2wS'.cmd_col ∧ updateCommandSpan c2wS' = .ok c2wS') :=
  ⟨by decide, by decide, c2_theorem c2wS c2wS' (by decide) (by decide)⟩

/-! ## Claim C3 -/

def c3raw : List (List Char) :=
  ["echo a \\".toList]

/-- Claim C3: the line-continuation scan does NOT terminate when the line at
`lastLine` ends with a backslash and is the final line of the file: the
`while` condition stays true and the guarded `+= 1` never fires, so the loop
body makes no progress for any number of iterations (`contLoop` stays
`running` for every fuel), and the total model flags the stuck state
(`scanCont` = `diverge`).  The code contradicts the spec's "stopping at end
of file". -/
theorem c3_theorem :
    (∀ fuel, contLoop c3raw fuel 0 = LoopRes.running 0) ∧
    scanCont c3raw 0 = .error .diverge := by
  constructor
  · intro fuel
    induction fuel with
    | zero => rfl
    | succ n ih =>
      have hstep : contLoop c3raw (n + 1) 0 = contLoop c3raw n 0 := rfl
      rw [hstep, ih]
  · decide

/-! ## Claim C4 -/

/-- Claim C4: with run-mode continuing, delay 0 and breakpoint `("", 5)`,
the policy auto-answers Advance (`"0"`) for every event whose top-frame line
is `< 5`, leaving run-mode and breakpoint unchanged, and on the first event
with line `≥ 5` it clears the breakpoint, switches to paused and writes no
answer.  (`time.sleep(0)` changes no session state and is not modelled.) -/
theorem c4_theorem (tops : List (List Char × Nat)) (t : List Char × Nat)
    (hall : ∀ x ∈ tops, x.2 < 5) (ht : 5 ≤ t.2) :
    runAuto (true, some ([], 5)) tops
      = ((true, some ([], 5)), tops.map (fun _ => some ['0'])) ∧
    runAuto (true, some ([], 5)) (tops ++ [t])
      = ((false, none), tops.map (fun _ => some ['0']) ++ [none]) := by
  have h1 := runAuto_advance 5 tops (fun x hx => by
    have := hall x hx
    omega)
  refine ⟨h1, ?_⟩
  rw [runAuto_append, h1]
  have h2 : runAuto (true, some (([] : List Char), (5 : Int))) [t]
      = ((false, none), [none]) := by
    have hhit := autoRespond_hit 5 t (by omega)
    simp only [runAuto]
    rw [hhit]
  dsimp only []
  rw [h2]

/-- Claim C4 witness: lines 1 and 4 are auto-advanced, line 7 consumes the
breakpoint and pauses without an answer. -/
theorem c4_theorem_witness :
    runAuto (true, some ([], 5)) [(['a'], 1), (['b'], 4)]
      = ((true, some ([], 5)), [some ['0'], some ['0']]) ∧
    runAuto (true, some ([], 5)) [(['a'], 1), (['b'], 4), (['c'], 7)]
      = ((false, none), [some ['0'], some ['0'], none]) := by
  have h := c4_theorem [(['a'], 1), (['b'], 4)] (['c'], 7) (by decide) (by decide)
  exact ⟨h.1, h.2⟩

/-! ## Claim C5 -/

def c5s : ScriptSource :=
  mkScriptSource "t.sh".toList 2 1 "bar".toList 1 ["if true; then foo; fi".toList]

/-- Claim C5: when the fragment case applies (command strictly shorter than
the merged line) but the command does not occur at or after the persisted
column, `merged_highlighted_lines.index(...)` raises `ValueError`; nothing
in `update_command_span`, `draw` or the event loop catches it, so the
session aborts instead of falling back to whole-line highlighting.  The
conjuncts certify: fragment case applies, no occurrence exists, and the
resolver raises. -/
theorem c5_theorem :
    "bar".toList.length < (spanMerged c5s 0).length ∧
    pyFindFrom (spanMerged c5s 0) "bar".toList 0 = none ∧
    updateCommandSpan c5s = .error .valueError := by
  refine ⟨by decide, by decide, by decide⟩

/-! ## Claim C6 -/

/-- Claim C6: a breakpoint spec `SCRIPT:LINE` with non-empty `SCRIPT` and
empty `LINE` is NOT accepted: `set_break` reaches `int('')`, which raises
`ValueError` at startup — contradicting the CLI help text "If LINE is empty,
first valid line is assumed". -/
theorem c6_theorem :
    pyInt ([] : List Char) = none ∧
    setBreak initBT "target.sh".toList [] = .error () := by
  refine ⟨by decide, by decide⟩

/-! ## Claim C7 -/

/-- Claim C7: sending an Eval step command (`'e'` with a non-empty
expression) writes `EVAL <expr>` with `done=False`, so the pending-response
flag stays set and the trace stack (hence the top frame's line, command and
depth) is untouched; a subsequent Advance (`'n'`), Skip (`'s'`) or Return
(`'r'`) on the same still-pending event clears the flag. -/
theorem c7_theorem (s : BTState) (v : List Char)
    (hin : s.inputMode = false) (haw : s.awaiting = true) (hv : v ≠ []) :
    (userInput s 'e' v).2 = some ("EVAL ".toList ++ v) ∧
    (userInput s 'e' v).1.awaiting = true ∧
    (userInput s 'e' v).1.scripts = s.scripts ∧
    (userInput (userInput s 'e' v).1 'n' v).2 = some ['0'] ∧
    (userInput (userInput s 'e' v).1 'n' v).1.awaiting = false ∧
    (userInput (userInput s 'e' v).1 'n' v).1.scripts = s.scripts ∧
    (userInput (userInput s 'e' v).1 's' v).1.awaiting = false ∧
    (userInput (userInput s 'e' v).1 'r' v).1.awaiting = false := by
  have h1 : userInput s 'e' v = ({ s with awaiting := true }, some ("EVAL ".toList ++ v)) := by
    simp [userInput, hin, haw, hv, sendDebug]
  have h2 : userInput { s with awaiting := true } 'n' v
      = ({ s with awaiting := false }, some ['0']) := by
    simp [userInput, hin, sendDebug]
  have h3 : userInput { s with awaiting := true } 's' v
      = ({ s with awaiting := false }, some ['1']) := by
    simp [userInput, hin, sendDebug]
  have h4 : userInput { s with awaiting := true } 'r' v
      = ({ s with awaiting := false }, some ['2']) := by
    simp [userInput, hin, sendDebug]
  rw [h1]
  exact ⟨rfl, rfl, rfl, by rw [h2], by rw [h2], by rw [h2], by rw [h3], by rw [h4]⟩

def c7wS : BTState :=
  { initBT with awaiting := true,
                scripts := [mkScriptSource ['t'] 2 1 ['x'] 0 []] }

/-- Claim C7 witness at a concrete session state. -/
theorem c7_theorem_witness :
    c7wS.inputMode = false ∧ c7wS.awaiting = true ∧
    (userInput c7wS 'e' "x".toList).2 = some "EVAL x".toList ∧
    (userInput c7wS 'e' "x".toList).1.awaiting = true ∧
    (userInput c7wS 'e' "x".toList).1.scripts = c7wS.scripts ∧
    (userInput (userInput c7wS 'e' "x".toList).1 'n' "x".toList).2 = some ['0'] ∧
    (userInput (userInput c7wS 'e' "x".toList).1 'n' "x".toList).1.awaiting = false := by
  have h := c7_theorem c7wS "x".toList rfl rfl (by decide)
  exact ⟨rfl, rfl, h.1, h.2.1, h.2.2.1, h.2.2.2.1, h.2.2.2.2.1⟩

/-! ## Claim C8 -/

def c8cexS : ScriptSource :=
  mkScriptSource "t.sh".toList 2 1 "echo c".toList 1 ["echo c".toList]

/-- Claim C8 counterexample: in the whole-line branch (command not strictly
shorter than the merged text) with a nonzero subshell id, the resolver does
not return the whole-line span — `assert self.subshell == 0` raises.  The
claim's "for any subshellId" fails. -/
theorem c8_counterexample :
    ¬ "echo c".toList.length < (spanMerged c8cexS 0).length ∧
    c8cexS.subshell ≠ 0 ∧
    updateCommandSpan c8cexS = .error .assertFail := by
  refine ⟨by decide, by decide, by decide⟩

/-- Claim C8 (amended): for subshell id 0, whenever the command is as long
as or longer than the merged continuation-stripped text of lines
`firstLine..lastLine`, the resolver returns the whole-line span: columns
both 0, `lastLine` from the continuation scan, and `firstLine` walked
backward by the number of embedded newlines in the command. -/
theorem c8_theorem (s : ScriptSource) (last : Nat)
    (hsub : s.subshell = 0)
    (hscan : spanScan s = .ok last)
    (hlen : ¬ s.command.length < (spanMerged s last).length) :
    updateCommandSpan s = .ok { s with
      cmd_first_line := ((s.lineno - 1 : Nat) : Int) - (s.command.count '\n' : Int),
      cmd_last_line := last, cmd_first_col := 0, cmd_last_col := 0 } := by
  unfold updateCommandSpan
  rw [hscan]
  dsimp only []
  rw [if_neg hlen, if_pos hsub]
  rfl

def c8wS : ScriptSource :=
  mkScriptSource "t.sh".toList 2 1 "echo a   b".toList 0
    ["echo a \\".toList, "  b".toList, "echo c".toList]

/-- Claim C8 witness: the spec's continuation example — source
`["echo a \\", "  b", "echo c"]`, reported `(line=1, command="echo a   b")`
— resolves to the whole of lines 1–2 (0-based span 0..1, both columns 0). -/
theorem c8_theorem_witness :
    c8wS.subshell = 0 ∧
    spanScan c8wS = .ok 1 ∧
    ¬ c8wS.command.length < (spanMerged c8wS 1).length ∧
    updateCommandSpan c8wS = .ok { c8wS with
      cmd_first_line := 0, cmd_last_line := 1,
      cmd_first_col := 0, cmd_last_col := 0 } :=
  ⟨rfl, by decide, by decide, c8_theorem c8wS 1 rfl (by decide) (by decide)⟩

/-! ## Claim C9 -/

/-- Claim C9 counterexample: a child that exits with status 7 is faithfully
returned by `run_script_noui`, but `main` discards that value and returns
`None`, so the interpreter's process exit status is 0, not 7. -/
theorem c9_counterexample :
    runScriptNoui 7 = 7 ∧ mainExitStatus 7 = 0 ∧ (7 : Int) ≠ 0 := by
  refine ⟨rfl, rfl, by decide⟩

/-- Claim C9 (amended): the session-run function returns the traced child's
exit status, and `proc_finish` reports a signal-terminated child (negative
wait status) as `Terminated (SIGNAME)`, textually distinct from the
`Finished (returned N)` form used for a normal exit — but the program's own
process exit status is always 0 because `main` discards the returned
status. -/
theorem c9_theorem (signalNames : Int → List Char) (st : Int) :
    runScriptNoui st = st ∧
    mainExitStatus st = 0 ∧
    (st < 0 → procFinishDiag signalNames st
      = "Terminated (".toList ++ signalNames (-st) ++ [')']) ∧
    (0 ≤ st → procFinishDiag signalNames st
      = "Finished (returned ".toList ++ (toString st).toList ++ [')']) ∧
    (∀ a b : List Char,
      "Terminated (".toList ++ a ++ [')'] ≠ "Finished (returned ".toList ++ b ++ [')']) := by
  refine ⟨rfl, rfl, ?_, ?_, ?_⟩
  · intro h
    unfold procFinishDiag
    rw [if_pos h]
  · intro h
    unfold procFinishDiag
    rw [if_neg (by omega)]
  · intro a b hcontra
    have hT : ("Terminated (".toList ++ a ++ [')']).head? = some 'T' := rfl
    have hF : ("Finished (returned ".toList ++ b ++ [')']).head? = some 'F' := rfl
    rw [hcontra, hF] at hT
    exact absurd (Option.some.inj hT) (by decide)

def c9wTable : Int → List Char :=
  fun n => if n = 15 then "SIGTERM".toList else []

/-- Claim C9 witness: wait status −15 (killed by SIGTERM). -/
theorem c9_theorem_witness :
    runScriptNoui (-15) = -15 ∧
    mainExitStatus (-15) = 0 ∧
    procFinishDiag c9wTable (-15) = "Terminated (SIGTERM)".toList ∧
    procFinishDiag c9wTable 3 = "Finished (returned 3)".toList := by
  have h := c9_theorem c9wTable (-15)
  have h3 := c9_theorem c9wTable 3
  refine ⟨h.1, h.2.1, ?_, ?_⟩
  · rw [h.2.2.1 (by decide)]
    decide
  · rw [h3.2.2.2.1 (by decide)]
    decide

/-! ## Claim C10 -/

def c10cexS : ScriptSource :=
  { mkScriptSource "t.sh".toList 2 1 "foo".toList 3 ["if true; then foo; fi".toList]
    with cmd_col := 7 }

/-- Claim C10 counterexample: updating the frame's subshell id to 0 does
reset the persisted column to 0, and the first fragment search after the
update starts at column 0 — but that search itself persists its match
column (14), so a repeated fragment search on the same still-subshell-0
frame (e.g. on a redraw before the next event) starts at column 14, not 0.
"Every fragment search performed while subshellId is 0 starts at column 0"
fails. -/
theorem c10_counterexample :
    (updateTop c10cexS 1 "foo".toList 0).cmd_col = 0 ∧
    (updateCommandSpan (updateTop c10cexS 1 "foo".toList 0)).toOption.map
      (fun s => (s.subshell, s.cmd_col)) = some (0, 14) ∧
    (14 : Nat) ≠ 0 := by
  refine ⟨by decide, by decide, by decide⟩

/-- Claim C10 (amended): updating a frame's subshell id to 0 (same-depth
event on the main shell) resets the persisted match column to 0, and the
updated frame is independent of whatever column was persisted before —
two states differing only in the persisted column coincide after the
update; moreover a repeated resolution of the updated frame reproduces the
first resolution exactly, so later redraw searches (which start at the
column the first search persisted, not at 0) still yield the same span. -/
theorem c10_theorem (s s' : ScriptSource) (l : Nat) (c : List Char) (k : Nat) :
    (updateTop s l c 0).cmd_col = 0 ∧
    updateTop { s with cmd_col := k } l c 0 = updateTop s l c 0 ∧
    (updateCommandSpan (updateTop s l c 0) = .ok s' →
      updateCommandSpan s' = .ok s') := by
  refine ⟨rfl, rfl, fun h => updateCommandSpan_idem _ _ h⟩

def c10wS' : ScriptSource :=
  { mkScriptSource "t.sh".toList 2 1 "foo".toList 0 ["if true; then foo; fi".toList]
    with cmd_col := 14, cmd_first_line := 0, cmd_last_line := 0,
         cmd_first_col := 14, cmd_last_col := 17 }

/-- Claim C10 witness: concrete reset, independence of the stale column 99,
and stability of the resolved state. -/
theorem c10_theorem_witness :
    (updateTop c10cexS 1 "foo".toList 0).cmd_col = 0 ∧
    updateTop { c10cexS with cmd_col := 99 } 1 "foo".toList 0
      = updateTop c10cexS 1 "foo".toList 0 ∧
    updateCommandSpan c10wS' = .ok c10wS' :=
  ⟨(c10_theorem c10cexS c10wS' 1 "foo".toList 99).1,
   (c10_theorem c10cexS c10wS' 1 "foo".toList 99).2.1,
   (c10_theorem c10cexS c10wS' 1 "foo".toList 99).2.2 (by decide)⟩

end Bashtrace
